import Mathlib

/-!
Verification of the RLP transaction-serialization core of
`markodayan/ethereum-experiments` (`src/lib/rlp/transaction.ts`).

Hex strings are embedded as their list of hex-digit values after the
`0x` prefix (each digit a `Nat` below 16, canonical lowercase assumed),
so the literal string `'0x0'` is `[0]` and `'0x00'` is `[0, 0]`, and
JavaScript string equality on canonical hex strings coincides with list
equality on the digits.  JavaScript divergence (unbounded recursion /
thrown exceptions) is modelled with an explicit fuel parameter and an
`Option` result: `none` means the call does not return normally.
-/

/-- A transaction field as it reaches the normalizer: either a hex string
(digits after the `0x` prefix) or a nested array of fields. -/
inductive JField where
  | str : List Nat → JField
  | arr : List JField → JField

/-- Result of `convertToByteArray`: either a byte sequence (`Uint8Array`)
or the empty JavaScript array literal returned for empty nested fields. -/
inductive CResult where
  | bytes : List Nat → CResult
  | emptyList : CResult
deriving DecidableEq, Repr

/-- Modelled from the spec: `hexZeroPad` (imported from
`src/lib/utils/conversion`, which is not under `src/`) left-pads the digit
string with zero nibbles up to `2 * byteLength` digits, per the spec's
words: "left-pad with a zero nibble if its nibble count is odd (so every
two hex characters map to exactly one byte)". -/
def hexZeroPad (digits : List Nat) (byteLength : Nat) : List Nat :=
  List.replicate (2 * byteLength - digits.length) 0 ++ digits

/-- Turn an even-length run of hex digits into bytes, two digits per byte,
most-significant first (the `for (let i = 0; i < padded.length; i += 2)`
loop of `toByteArr`). -/
def pairsToBytes : List Nat → List Nat
  | a :: b :: rest => (16 * a + b) :: pairsToBytes rest
  | _ => []

/-- `toByteArr` from `transaction.ts`: strip the prefix, pad to a whole
number of bytes, and parse digit pairs big-endian. -/
def toByteArr (digits : List Nat) : List Nat :=
  pairsToBytes (hexZeroPad digits ((digits.length + 1) / 2))

/-- `convertToByteArray` from `transaction.ts`, with fuel.  The source
checks, in order: empty array literal (returned unchanged), non-nested hex
string (`'0x0'` sentinel to empty bytes, otherwise `toByteArr`), and a
nested non-empty array, on which the source recurses with the very same
argument (`return convertToByteArray(field)`). -/
def convertToByteArray (fuel : Nat) (field : JField) : Option CResult :=
  match fuel with
  | 0 => none
  | fuel + 1 =>
    match field with
    | JField.arr [] => some CResult.emptyList
    | JField.str s =>
        if s = [0] then some (CResult.bytes [])
        else some (CResult.bytes (toByteArr s))
    | JField.arr (x :: xs) => convertToByteArray fuel (JField.arr (x :: xs))

/-- Modelled from the spec: the RLP item type of §3 (the local RLP encoder
module `src/lib/rlp/rlp` is not under `src/`): a tagged union of byte
sequences and ordered sequences of items. -/
inductive RlpItem where
  | bytes : List Nat → RlpItem
  | list : List RlpItem → RlpItem

/-- Minimal big-endian byte representation of a natural number (used for
the long-form length fields of RLP rules 3 and 5); fuel-driven so that it
is structurally recursive, with the number itself as ample fuel. -/
def beBytesAux : Nat → Nat → List Nat
  | 0, _ => []
  | fuel + 1, n => if n = 0 then [] else beBytesAux fuel (n / 256) ++ [n % 256]

def beBytes (n : Nat) : List Nat :=
  beBytesAux n n

/-- Modelled from the spec: the shared length-prefix rule of §4.2 — a
payload of at most 55 bytes gets the single prefix byte `offset + length`
(rules 2 and 4, with `offset` `0x80` for bytes and `0xC0` for lists);
a longer payload gets `offset + 55 + |length bytes|` followed by the
big-endian length (rules 3 and 5, since `0xB7 = 0x80 + 55` and
`0xF7 = 0xC0 + 55`). -/
def lengthTagged (offset : Nat) (payload : List Nat) : List Nat :=
  if payload.length ≤ 55 then (offset + payload.length) :: payload
  else (offset + 55 + (beBytes payload.length).length) ::
    (beBytes payload.length ++ payload)

/-- Modelled from the spec: §4.2 rule 1 — a single byte below `0x80`
encodes as itself; any other byte sequence falls to rules 2 and 3. -/
def encodeBytes (bs : List Nat) : List Nat :=
  match bs with
  | [b] => if b < 128 then [b] else lengthTagged 128 [b]
  | _ => lengthTagged 128 bs

mutual
/-- Modelled from the spec: `encode` of the local RLP encoder module per
§4.2 — bytes by rules 1–3, lists by rules 4–5 over the concatenated
encodings of the elements. -/
def rlpEncode : RlpItem → List Nat
  | RlpItem.bytes bs => encodeBytes bs
  | RlpItem.list items => lengthTagged 192 (rlpEncodeItems items)

/-- Concatenation of the recursive encodings of a list's elements. -/
def rlpEncodeItems : List RlpItem → List Nat
  | [] => []
  | item :: rest => rlpEncode item ++ rlpEncodeItems rest
end

/-- How the RLP encoder views one normalizer result: a `Uint8Array`
becomes a byte item and the empty array literal an empty list item. -/
def toRlpItem : CResult → RlpItem
  | CResult.bytes bs => RlpItem.bytes bs
  | CResult.emptyList => RlpItem.list []

/-- Sequential `Option`-valued map: `none` as soon as one element fails,
modelling a thrown exception or exhausted fuel inside a JavaScript
`Array.prototype.map` / `forEach` loop. -/
def mapOpt (f : α → Option β) : List α → Option (List β)
  | [] => some []
  | a :: rest =>
    match f a with
    | none => none
    | some b => (mapOpt f rest).map (fun bs => b :: bs)

/-- A raw transaction record as consumed by `serialiseTransaction`.  The
source destructures one shared object shape per `tx.type`, so a single
structure carries every field any variant reads; `type` is the hex-string
discriminant (`none` for an absent key). -/
structure RawTransaction where
  type : Option (List Nat) := none
  nonce : JField := JField.str []
  gasPrice : JField := JField.str []
  gas : JField := JField.str []
  «to» : JField := JField.str []
  value : JField := JField.str []
  input : JField := JField.str []
  v : JField := JField.str []
  r : JField := JField.str []
  s : JField := JField.str []
  chainId : JField := JField.str []
  maxPriorityFeePerGas : JField := JField.str []
  maxFeePerGas : JField := JField.str []
  accessList : JField := JField.arr []

/-- `serialiseTransaction` from `transaction.ts`: switch on `tx.type`
(`'0x1'` and `'0x2'` are the typed cases; `'0x0'` and every other value
fall to the shared legacy branch), map `convertToByteArray` over the
variant's field tuple, RLP-encode the tuple as a list, and prepend the
one-byte marker `0x01` / `0x02` for the typed cases. -/
def serialiseTransaction (fuel : Nat) (tx : RawTransaction) : Option (List Nat) :=
  if tx.type = some [1] then
    (mapOpt (convertToByteArray fuel)
      [tx.chainId, tx.nonce, tx.gasPrice, tx.gas, tx.«to», tx.value, tx.input,
        tx.accessList, tx.v, tx.r, tx.s]).map
      (fun byteTuple => 1 :: rlpEncode (RlpItem.list (byteTuple.map toRlpItem)))
  else if tx.type = some [2] then
    (mapOpt (convertToByteArray fuel)
      [tx.chainId, tx.nonce, tx.maxPriorityFeePerGas, tx.maxFeePerGas, tx.gas,
        tx.«to», tx.value, tx.input, tx.accessList, tx.v, tx.r, tx.s]).map
      (fun byteTuple => 2 :: rlpEncode (RlpItem.list (byteTuple.map toRlpItem)))
  else
    (mapOpt (convertToByteArray fuel)
      [tx.nonce, tx.gasPrice, tx.gas, tx.«to», tx.value, tx.input,
        tx.v, tx.r, tx.s]).map
      (fun byteTuple => rlpEncode (RlpItem.list (byteTuple.map toRlpItem)))

/-- `serialiseTransactions` from `transaction.ts`: element-wise
serialisation of an array of transaction records. -/
def serialiseTransactions (fuel : Nat) (arr : List RawTransaction) :
    Option (List (List Nat)) :=
  mapOpt (serialiseTransaction fuel) arr

/-- An entry of a block's `transactions` array: either a full transaction
record or a bare hash string (condensed form). -/
inductive TxEntry where
  | tx : RawTransaction → TxEntry
  | hash : String → TxEntry

/-- `calculateTransactionHash` from `transaction.ts`.  The external
Keccak-256 primitive composed with the `hexify` digest formatter (both
outside `src/`, and a spec-declared black box) is the abstract parameter
`k`, applied to the serialised bytes. -/
def calculateTransactionHash (k : List Nat → String) (fuel : Nat)
    (tx : RawTransaction) : Option String :=
  (serialiseTransaction fuel tx).map k

/-- What the batch hasher's `forEach` body does to one entry: a full
record is hashed; a bare string reaches `toByteArr` on `undefined` fields
and throws, modelled as `none`. -/
def entryHash (k : List Nat → String) (fuel : Nat) : TxEntry → Option String
  | TxEntry.tx t => calculateTransactionHash k fuel t
  | TxEntry.hash _ => none

/-- The `typeof arr[0] !== 'string'` guard of
`calculateTransactionHashes`: true exactly when the first entry exists
and is a string (an absent `arr[0]` is `undefined`, not a string). -/
def isStringEntry : Option TxEntry → Bool
  | some (TxEntry.hash _) => true
  | _ => false

/-- `calculateTransactionHashes` from `transaction.ts`: when the first
entry is a string the `forEach` is skipped and the accumulator is
returned still empty; otherwise every entry is hashed in order. -/
def calculateTransactionHashes (k : List Nat → String) (fuel : Nat)
    (arr : List TxEntry) : Option (List String) :=
  if isStringEntry arr.head? then some []
  else mapOpt (entryHash k fuel) arr

/-- A raw block as consumed by `calculateBlockTransactionHashes`: only
its `transactions` field is read. -/
structure IRawBlock where
  transactions : List TxEntry

/-- The `block.transactions[0] === 'string'` test of
`calculateBlockTransactionHashes`: JavaScript strict equality against the
string literal `'string'`, true only when the first entry is that very
string (an object never strictly equals a string). -/
def isCondensedMarker : Option TxEntry → Bool
  | some (TxEntry.hash s) => s = "string"
  | _ => false

/-- `calculateBlockTransactionHashes` from `transaction.ts`: the Boolean
in the result records whether the `console.error` diagnostic was emitted
before returning `[]`; otherwise the batch hasher's result is returned
with no diagnostic. -/
def calculateBlockTransactionHashes (k : List Nat → String) (fuel : Nat)
    (block : IRawBlock) : Option (List String × Bool) :=
  if isCondensedMarker block.transactions.head? then some ([], true)
  else (calculateTransactionHashes k fuel block.transactions).map
    (fun hs => (hs, false))

/-- Value of a hex-digit string as a big-endian base-16 natural number. -/
def hexVal (ds : List Nat) : Nat :=
  ds.foldl (fun acc d => 16 * acc + d) 0

/-- Value of a byte string as a big-endian base-256 natural number. -/
def beVal (bs : List Nat) : Nat :=
  bs.foldl (fun acc b => 256 * acc + b) 0

/-- RLP-encode a field tuple the way §4.3 words it: normalize every
field, wrap the tuple as a `List` item, and encode it via §4.2. -/
def rlpOfNormalized (fuel : Nat) (tuple : List JField) : Option (List Nat) :=
  (mapOpt (convertToByteArray fuel) tuple).map
    (fun bt => rlpEncode (RlpItem.list (bt.map toRlpItem)))

/-- The spec's canonical Legacy field order (§3): nonce, gasPrice,
gasLimit (the record's `gas`), to, value, data (the record's `input`),
v, r, s. -/
def specLegacyTuple (tx : RawTransaction) : List JField :=
  [tx.nonce, tx.gasPrice, tx.gas, tx.«to», tx.value, tx.input, tx.v, tx.r, tx.s]

/-- The spec's canonical AccessList field order (§3): chainId, nonce,
gasPrice, gasLimit, to, value, data, accessList, v, r, s. -/
def specAccessListTuple (tx : RawTransaction) : List JField :=
  [tx.chainId, tx.nonce, tx.gasPrice, tx.gas, tx.«to», tx.value, tx.input,
    tx.accessList, tx.v, tx.r, tx.s]

/-- The spec's canonical DynamicFee field order (§3): chainId, nonce,
maxPriorityFeePerGas, maxFeePerGas, gasLimit, to, value, data,
accessList, v, r, s. -/
def specDynamicFeeTuple (tx : RawTransaction) : List JField :=
  [tx.chainId, tx.nonce, tx.maxPriorityFeePerGas, tx.maxFeePerGas, tx.gas,
    tx.«to», tx.value, tx.input, tx.accessList, tx.v, tx.r, tx.s]

/-- The concrete hex-string field `'0x1'`, used in concrete evaluations. -/
def wOne : JField := JField.str [1]

/-- A concrete legacy transaction record with every scalar field `'0x1'`. -/
def wTx : RawTransaction :=
  { type := some [0], nonce := wOne, gasPrice := wOne, gas := wOne,
    «to» := wOne, value := wOne, input := wOne, v := wOne, r := wOne, s := wOne }

/-- `wTx` with the unrecognized type discriminant `'0x3'`. -/
def wTx3 : RawTransaction := { wTx with type := some [3] }

/-- The non-empty nested access-list value `[['0x1', ['0x1']]]` (one
address with one storage key). -/
def wAL : JField := JField.arr [JField.arr [wOne, JField.arr [wOne]]]

/-- A concrete AccessList (`'0x1'`) transaction whose `accessList` is the
non-empty nested sequence `wAL`. -/
def wAccessTx : RawTransaction :=
  { wTx with type := some [1], chainId := wOne, accessList := wAL }

/-- A concrete instance of the abstract Keccak-and-hexify parameter. -/
def wK : List Nat → String := fun _ => "0xabc"

/-- The serialisation of `wTx`: the RLP list prefix `0xC9` followed by the
nine single bytes `0x01`. -/
def wSer : List Nat := [201, 1, 1, 1, 1, 1, 1, 1, 1, 1]

/-- On a non-empty nested array the normalizer recurses on the very same
argument (`return convertToByteArray(field)` in the source), so it
exhausts every amount of fuel. -/
theorem convert_arr_cons (fuel : Nat) (x : JField) (xs : List JField) :
    convertToByteArray fuel (JField.arr (x :: xs)) = none := by
  induction fuel with
  | zero => rfl
  | succ n ih => exact ih

/-- `mapOpt` fails as soon as one element fails. -/
theorem mapOpt_none_of_mem {α β : Type} {f : α → Option β} {l : List α}
    {a : α} (ha : a ∈ l) (hf : f a = none) : mapOpt f l = none := by
  induction l with
  | nil => cases ha
  | cons x xs ih =>
    rcases List.mem_cons.mp ha with h | h
    · subst h; simp [mapOpt, hf]
    · cases hfx : f x with
      | none => simp [mapOpt, hfx]
      | some b => simp [mapOpt, hfx, ih h]

/-- A successful `mapOpt` preserves the length of its input. -/
theorem mapOpt_length {α β : Type} {f : α → Option β} {l : List α} :
    ∀ {out : List β}, mapOpt f l = some out → out.length = l.length := by
  induction l with
  | nil => intro out h; simp [mapOpt] at h; simp [← h]
  | cons a rest ih =>
    intro out h
    cases hfa : f a with
    | none => simp [mapOpt, hfa] at h
    | some b =>
      cases hrest : mapOpt f rest with
      | none => simp [mapOpt, hfa, hrest] at h
      | some bs =>
        simp [mapOpt, hfa, hrest] at h
        subst h
        simp [ih hrest]

/-- A successful `mapOpt` maps the i-th input to the i-th output. -/
theorem mapOpt_get {α β : Type} {f : α → Option β} :
    ∀ {l : List α} {out : List β}, mapOpt f l = some out →
      ∀ (i : Nat) (h1 : i < l.length) (h2 : i < out.length),
        f (l.get ⟨i, h1⟩) = some (out.get ⟨i, h2⟩) := by
  intro l
  induction l with
  | nil => intro out h i h1 h2; cases h1
  | cons a rest ih =>
    intro out h i h1 h2
    cases hfa : f a with
    | none => simp [mapOpt, hfa] at h
    | some b =>
      cases hrest : mapOpt f rest with
      | none => simp [mapOpt, hfa, hrest] at h
      | some bs =>
        simp [mapOpt, hfa, hrest] at h
        subst h
        cases i with
        | zero => simpa using hfa
        | succ j =>
          exact ih hrest j (Nat.lt_of_succ_lt_succ h1)
            (Nat.lt_of_succ_lt_succ (by simpa using h2))

/-- `mapOpt` over a mapped list composes the functions. -/
theorem mapOpt_map_comp {α β γ : Type} (f : β → Option γ) (g : α → β) :
    ∀ (l : List α), mapOpt f (l.map g) = mapOpt (fun a => f (g a)) l := by
  intro l
  induction l with
  | nil => rfl
  | cons a rest ih => cases hfa : f (g a) <;> simp [mapOpt, hfa, ih]

/-- Pairing up digits halves the length (rounding down). -/
theorem pairsToBytes_length :
    ∀ (ds : List Nat), (pairsToBytes ds).length = ds.length / 2
  | [] => by simp [pairsToBytes]
  | [a] => by simp [pairsToBytes]
  | a :: b :: rest => by
    simp [pairsToBytes, pairsToBytes_length rest]
    omega

/-- On an even number of digits, folding the paired bytes base 256 agrees
with folding the digits base 16, for every accumulator. -/
theorem pairsToBytes_foldl :
    ∀ (ds : List Nat), ds.length % 2 = 0 → ∀ (acc : Nat),
      (pairsToBytes ds).foldl (fun a b => 256 * a + b) acc =
        ds.foldl (fun a d => 16 * a + d) acc
  | [], _, _ => rfl
  | [a], h, _ => by simp at h
  | a :: b :: rest, h, acc => by
    have hr : rest.length % 2 = 0 := by
      simp [List.length_cons] at h
      omega
    simp only [pairsToBytes, List.foldl_cons]
    rw [pairsToBytes_foldl rest hr]
    congr 1
    ring

/-- Leading zero nibbles do not change a base-16 fold from zero. -/
theorem hexVal_replicate_zero (k : Nat) :
    List.foldl (fun acc d => 16 * acc + d) 0 (List.replicate k 0) = 0 := by
  induction k with
  | zero => rfl
  | succ n ih => simpa [List.replicate_succ] using ih

/-- The base-16 fold never drops below its accumulator. -/
theorem foldl_hex_ge : ∀ (ds : List Nat) (acc : Nat),
    acc ≤ ds.foldl (fun a d => 16 * a + d) acc
  | [], acc => Nat.le_refl acc
  | d :: rest, acc => by
    have h1 : acc ≤ 16 * acc + d := by omega
    exact le_trans h1 (by simpa using foldl_hex_ge rest (16 * acc + d))

/-- A hex string of value zero has a zero head digit and a zero tail. -/
theorem hexVal_zero_head (d : Nat) (rest : List Nat)
    (h : hexVal (d :: rest) = 0) : d = 0 ∧ hexVal rest = 0 := by
  have h1 : rest.foldl (fun a x => 16 * a + x) (16 * 0 + d) = 0 := by
    simpa [hexVal] using h
  have h2 : (16 * 0 + d) ≤ rest.foldl (fun a x => 16 * a + x) (16 * 0 + d) :=
    foldl_hex_ge rest _
  have hd : d = 0 := by omega
  subst hd
  exact ⟨rfl, by simpa [hexVal] using h1⟩

/-- A hex string of value zero is a run of zero digits. -/
theorem hexVal_zero_replicate :
    ∀ (ds : List Nat), hexVal ds = 0 → ds = List.replicate ds.length 0
  | [], _ => rfl
  | d :: rest, h => by
    obtain ⟨hd, hrest⟩ := hexVal_zero_head d rest h
    subst hd
    rw [List.length_cons, List.replicate_succ]
    exact congrArg (List.cons 0) (hexVal_zero_replicate rest hrest)

/-- Pairing an even run of zero digits gives the half-length run of zero
bytes. -/
theorem pairsToBytes_replicate_zero :
    ∀ (k : Nat), pairsToBytes (List.replicate (2 * k) 0) = List.replicate k 0
  | 0 => rfl
  | k + 1 => by
    have h2 : 2 * (k + 1) = (2 * k) + 1 + 1 := by ring
    rw [h2, List.replicate_succ, List.replicate_succ]
    simp only [pairsToBytes, pairsToBytes_replicate_zero k]
    simp [List.replicate_succ]

/-- `toByteArr` maps a run of m zero digits to ceil(m/2) zero bytes. -/
theorem toByteArr_replicate_zero (m : Nat) :
    toByteArr (List.replicate m 0) = List.replicate ((m + 1) / 2) 0 := by
  rw [toByteArr, hexZeroPad, List.length_replicate, ← List.replicate_add]
  have h : (2 * ((m + 1) / 2) - m) + m = 2 * ((m + 1) / 2) := by omega
  rw [h]
  exact pairsToBytes_replicate_zero ((m + 1) / 2)

/-- C1: contrary to the claim, serialisation does not terminate on typed
transactions with a non-empty access list — the normalizer's nested-array
branch recurses on its unchanged argument, so it returns for no amount of
fuel, and neither does `serialiseTransaction` on the concrete AccessList
transaction `wAccessTx` whose `accessList` is non-empty. -/
theorem c1_nonempty_accesslist_diverges :
    (∀ (fuel : Nat) (x : JField) (xs : List JField),
        convertToByteArray fuel (JField.arr (x :: xs)) = none)
  ∧ (∀ fuel : Nat, serialiseTransaction fuel wAccessTx = none) := by
  refine ⟨convert_arr_cons, fun fuel => ?_⟩
  have hnone : convertToByteArray fuel wAccessTx.accessList = none := by
    show convertToByteArray fuel (JField.arr [JField.arr [wOne, JField.arr [wOne]]]) = none
    exact convert_arr_cons fuel _ _
  have htype : wAccessTx.type = some [1] := rfl
  have hmem : wAccessTx.accessList ∈
      [wAccessTx.chainId, wAccessTx.nonce, wAccessTx.gasPrice, wAccessTx.gas,
        wAccessTx.«to», wAccessTx.value, wAccessTx.input, wAccessTx.accessList,
        wAccessTx.v, wAccessTx.r, wAccessTx.s] := by simp
  simp [serialiseTransaction, htype, mapOpt_none_of_mem hmem hnone]

/-- C2 counterexample: `'0x00'` is a hex string whose numeric value is
exactly zero, yet the normalizer maps it to the single byte `0x00`, not
to the empty byte sequence — the source compares against the literal
string `'0x0'` only. -/
theorem c2_zero_hex_counterexample :
    hexVal [0, 0] = 0
  ∧ convertToByteArray 1 (JField.str [0, 0]) = some (CResult.bytes [0])
  ∧ convertToByteArray 1 (JField.str [0, 0]) ≠ some (CResult.bytes []) :=
  ⟨rfl, rfl, by decide⟩

/-- C2 (amended): for every hex string of numeric value exactly zero, the
normalizer returns the empty byte sequence only through the literal
sentinel spelling `'0x0'` (caught by the equality check) or the empty
digit string `'0x'` (whose digit-wise conversion is empty); every other
zero-valued spelling, which is a run of n ≥ 2 zero digits, is converted
digit-wise to the non-empty run of ceil(n/2) `0x00` bytes — e.g. `'0x00'`
yields the single byte `0x00` — never the empty sequence. -/
theorem c2_zero_hex_characterization (ds : List Nat) (n : Nat)
    (h0 : hexVal ds = 0) :
    convertToByteArray (n + 1) (JField.str ds) =
      some (CResult.bytes
        (if ds = [0] then [] else List.replicate ((ds.length + 1) / 2) 0)) := by
  by_cases hds : ds = [0]
  · subst hds
    simp [convertToByteArray]
  · have hlen : toByteArr ds = List.replicate ((ds.length + 1) / 2) 0 := by
      conv_lhs => rw [hexVal_zero_replicate ds h0]
      rw [toByteArr_replicate_zero]
    simp [convertToByteArray, hds, hlen]

/-- Witness for C2 (amended) at the zero-valued hex string `'0x00'`. -/
theorem c2_zero_hex_characterization_witness :
    hexVal [0, 0] = 0
  ∧ convertToByteArray 1 (JField.str [0, 0]) =
      some (CResult.bytes
        (if ([0, 0] : List Nat) = [0] then []
         else List.replicate ((([0, 0] : List Nat).length + 1) / 2) 0)) :=
  ⟨rfl, c2_zero_hex_characterization [0, 0] 0 rfl⟩

/-- C3: on a condensed block the code does return the empty sequence and
no error, but the diagnostic is never emitted (`false` flag) — the
detection compares the first entry against the literal string `'string'`
instead of its type, firing only on that very string. -/
theorem c3_condensed_empty_no_diagnostic (k : List Nat → String) (fuel : Nat) :
    calculateBlockTransactionHashes k fuel
      ⟨[TxEntry.hash "0xabc", TxEntry.hash "0xdef"]⟩ = some ([], false)
  ∧ calculateBlockTransactionHashes k fuel
      ⟨[TxEntry.hash "string"]⟩ = some ([], true) :=
  ⟨rfl, rfl⟩

/-- C4: for the AccessList type `'0x1'` the output is the byte `0x01`
followed by the RLP encoding of the normalized field tuple, for
DynamicFee `'0x2'` the byte `0x02` followed by it, and for Legacy `'0x0'`
exactly the RLP encoding with no marker. -/
theorem c4_type_marker_envelope (tx : RawTransaction) (fuel : Nat) :
    serialiseTransaction fuel { tx with type := some [1] } =
      (rlpOfNormalized fuel (specAccessListTuple tx)).map (fun p => 1 :: p)
  ∧ serialiseTransaction fuel { tx with type := some [2] } =
      (rlpOfNormalized fuel (specDynamicFeeTuple tx)).map (fun p => 2 :: p)
  ∧ serialiseTransaction fuel { tx with type := some [0] } =
      rlpOfNormalized fuel (specLegacyTuple tx) := by
  refine ⟨?_, ?_, ?_⟩ <;>
    simp [serialiseTransaction, rlpOfNormalized, specAccessListTuple,
      specDynamicFeeTuple, specLegacyTuple, Option.map_map]
  all_goals rfl

/-- C5: the serialised field tuples are built in exactly the canonical
order of each variant — Legacy (nonce, gasPrice, gasLimit, to, value,
data, v, r, s), AccessList (chainId, nonce, gasPrice, gasLimit, to,
value, data, accessList, v, r, s), DynamicFee (chainId, nonce,
maxPriorityFeePerGas, maxFeePerGas, gasLimit, to, value, data,
accessList, v, r, s), where the record names `gas` and `input` carry the
canonical `gasLimit` and `data` fields. -/
theorem c5_canonical_field_order (tx : RawTransaction) (fuel : Nat) :
    serialiseTransaction fuel { tx with type := some [0] } =
      rlpOfNormalized fuel
        [tx.nonce, tx.gasPrice, tx.gas, tx.«to», tx.value, tx.input,
          tx.v, tx.r, tx.s]
  ∧ serialiseTransaction fuel { tx with type := some [1] } =
      (rlpOfNormalized fuel
        [tx.chainId, tx.nonce, tx.gasPrice, tx.gas, tx.«to», tx.value,
          tx.input, tx.accessList, tx.v, tx.r, tx.s]).map (fun p => 1 :: p)
  ∧ serialiseTransaction fuel { tx with type := some [2] } =
      (rlpOfNormalized fuel
        [tx.chainId, tx.nonce, tx.maxPriorityFeePerGas, tx.maxFeePerGas,
          tx.gas, tx.«to», tx.value, tx.input, tx.accessList,
          tx.v, tx.r, tx.s]).map (fun p => 2 :: p) := by
  refine ⟨?_, ?_, ?_⟩ <;>
    simp [serialiseTransaction, rlpOfNormalized, Option.map_map]
  all_goals rfl

/-- C6: an absent or unrecognized type discriminant serialises exactly as
the same record under the Legacy layout. -/
theorem c6_unknown_type_defaults_to_legacy (tx : RawTransaction) (fuel : Nat)
    (h : tx.type = none ∨
      (tx.type ≠ some [0] ∧ tx.type ≠ some [1] ∧ tx.type ≠ some [2])) :
    serialiseTransaction fuel tx =
      serialiseTransaction fuel { tx with type := some [0] } := by
  have h1 : ¬ tx.type = some [1] := by
    rcases h with h | h
    · simp [h]
    · exact h.2.1
  have h2 : ¬ tx.type = some [2] := by
    rcases h with h | h
    · simp [h]
    · exact h.2.2
  simp [serialiseTransaction, h1, h2]

/-- Witness for C6 at the concrete discriminant `'0x3'`. -/
theorem c6_unknown_type_defaults_to_legacy_witness :
    (wTx3.type = none ∨
      (wTx3.type ≠ some [0] ∧ wTx3.type ≠ some [1] ∧ wTx3.type ≠ some [2]))
  ∧ serialiseTransaction 1 wTx3 =
      serialiseTransaction 1 { wTx3 with type := some [0] } :=
  ⟨by decide, c6_unknown_type_defaults_to_legacy wTx3 1 (by decide)⟩

/-- C7: on a sequence of full transaction records the batch hasher and the
batch serialiser preserve length and order — the i-th output is the hash
(respectively serialisation) of the i-th input. -/
theorem c7_batch_preserves_order (k : List Nat → String) (fuel : Nat)
    (ts : List RawTransaction) :
    (∀ out, calculateTransactionHashes k fuel (ts.map TxEntry.tx) = some out →
      out.length = ts.length ∧
      ∀ (i : Nat) (h1 : i < ts.length) (h2 : i < out.length),
        calculateTransactionHash k fuel (ts.get ⟨i, h1⟩) =
          some (out.get ⟨i, h2⟩))
  ∧ (∀ outS, serialiseTransactions fuel ts = some outS →
      outS.length = ts.length ∧
      ∀ (i : Nat) (h1 : i < ts.length) (h2 : i < outS.length),
        serialiseTransaction fuel (ts.get ⟨i, h1⟩) =
          some (outS.get ⟨i, h2⟩)) := by
  constructor
  · intro out h
    have hno : isStringEntry (ts.map TxEntry.tx).head? = false := by
      cases ts with
      | nil => rfl
      | cons t rest => rfl
    rw [calculateTransactionHashes, hno] at h
    simp only [Bool.false_eq_true, if_false] at h
    rw [mapOpt_map_comp] at h
    have h' : mapOpt (fun t => calculateTransactionHash k fuel t) ts = some out := h
    exact ⟨mapOpt_length h', fun i h1 h2 => mapOpt_get h' i h1 h2⟩
  · intro outS h
    have h' : mapOpt (serialiseTransaction fuel) ts = some outS := h
    exact ⟨mapOpt_length h', fun i h1 h2 => mapOpt_get h' i h1 h2⟩

/-- Witness for C7 on the one-element batch `[wTx]`. -/
theorem c7_batch_preserves_order_witness :
    calculateTransactionHashes wK 1 ([wTx].map TxEntry.tx) = some ["0xabc"]
  ∧ serialiseTransactions 1 [wTx] = some [wSer]
  ∧ calculateTransactionHash wK 1 ([wTx].get ⟨0, Nat.zero_lt_one⟩) =
      some (["0xabc"].get ⟨0, Nat.zero_lt_one⟩)
  ∧ serialiseTransaction 1 ([wTx].get ⟨0, Nat.zero_lt_one⟩) =
      some ([wSer].get ⟨0, Nat.zero_lt_one⟩) :=
  ⟨rfl, rfl,
    ((c7_batch_preserves_order wK 1 [wTx]).1 ["0xabc"] rfl).2
      0 Nat.zero_lt_one Nat.zero_lt_one,
    ((c7_batch_preserves_order wK 1 [wTx]).2 [wSer] rfl).2
      0 Nat.zero_lt_one Nat.zero_lt_one⟩

/-- C8: the normalizer turns a hex string of n digits into exactly
ceil(n/2) bytes whose big-endian base-256 value equals the base-16 value
of the digits, so the odd-nibble zero padding never changes the value. -/
theorem c8_toByteArr_shape (digits : List Nat) :
    (toByteArr digits).length = (digits.length + 1) / 2
  ∧ beVal (toByteArr digits) = hexVal digits := by
  constructor
  · rw [toByteArr, pairsToBytes_length]
    simp [hexZeroPad]
    omega
  · rw [toByteArr, beVal, hexVal,
      pairsToBytes_foldl _ (by simp [hexZeroPad]; omega)]
    simp [hexZeroPad, List.foldl_append, hexVal_replicate_zero]

/-- C9: the RLP encoder maps the empty byte sequence to the single byte
`0x80` and the empty list to the single byte `0xC0`. -/
theorem c9_empty_encodings :
    rlpEncode (RlpItem.bytes []) = [128] ∧ rlpEncode (RlpItem.list []) = [192] :=
  ⟨rfl, rfl⟩

/-- C10: a block with an empty transactions array yields the empty hash
sequence, with no condensed-input diagnostic and no error. -/
theorem c10_empty_block (k : List Nat → String) (fuel : Nat) :
    calculateBlockTransactionHashes k fuel ⟨[]⟩ = some ([], false) :=
  rfl
